import Mathlib

/-!
Shallow embedding of cmd/lsf/lsf.go (the rclone lsf command): the format
compiler, entry filter, line renderer and listing driver, together with
models of the collaborators that lsf.go uses from elsewhere in the
repository (operations.ListFormat, walk.Walk, the error side channel),
which are modelled from the specification since they are outside the
source fragment.
-/

namespace Rclone

/-- Modelled from the spec: the hash kinds selectable with the hash flag
(fs/hash is not part of the source fragment). -/
inductive HashType
  | md5
  | sha1
  | dropbox
deriving DecidableEq

/-- Modelled from the spec: the two failure modes of reading an entry's hash
(fs/hash is not part of the source fragment): the backend does not support
the hash kind, or the computation was attempted and failed. -/
inductive HashErr
  | unsupported
  | failed
deriving DecidableEq

/-- Modelled from the spec: the attributes of a directory entry that the
renderer reads (fs.DirEntry is not part of the source fragment).  `modTime`
is the already formatted modification-time string (empty when unavailable);
`hashes` is the backend's hash lookup: the hash string on success (the empty
string when the hash is not available on the object), or a failure mode. -/
structure EntryData where
  path : String
  modTime : String
  size : Int
  hashes : HashType → Except HashErr String

/-- Modelled from the spec: an entry is either a file (fs.Object) or a
directory (fs.Directory); the variant tag is immutable. -/
inductive Entry
  | file (d : EntryData)
  | dir (d : EntryData)

def Entry.data : Entry → EntryData
  | .file d => d
  | .dir d => d

/-- The type assertion on fs.Directory performed by the Go source. -/
def Entry.isDir : Entry → Bool
  | .file _ => false
  | .dir _ => true

/-- Modelled from the spec: one output column of operations.ListFormat (the
closures appended by AddPath, AddModTime, AddSize and AddHash),
defunctionalised as a tag interpreted by `applyColumn`. -/
inductive Column
  | path
  | modTime
  | size
  | hash (ht : HashType)
deriving DecidableEq

/-- Modelled from the spec: operations.ListFormat (not part of the source
fragment): separator, directory-slash decoration and the ordered list of
output columns.  The defaults are the Go zero values. -/
structure ListFormat where
  separator : String := ""
  dirSlash : Bool := false
  output : List Column := []
deriving DecidableEq

def ListFormat.SetSeparator (l : ListFormat) (s : String) : ListFormat :=
  { l with separator := s }

def ListFormat.SetDirSlash (l : ListFormat) (b : Bool) : ListFormat :=
  { l with dirSlash := b }

def ListFormat.AppendOutput (l : ListFormat) (c : Column) : ListFormat :=
  { l with output := l.output ++ [c] }

def ListFormat.AddPath (l : ListFormat) : ListFormat :=
  l.AppendOutput Column.path

def ListFormat.AddModTime (l : ListFormat) : ListFormat :=
  l.AppendOutput Column.modTime

def ListFormat.AddSize (l : ListFormat) : ListFormat :=
  l.AppendOutput Column.size

def ListFormat.AddHash (l : ListFormat) (ht : HashType) : ListFormat :=
  l.AppendOutput (Column.hash ht)

/-- Modelled from the spec: operations.hashSum (not part of the source
fragment), as also described by the command help inside lsf.go: the hash
string on success (which is the empty string when the hash is not available
on the object), the literal ERROR when reading it failed, the literal
UNSUPPORTED when the backend does not support the hash type. -/
def hashSum (r : Except HashErr String) : String :=
  match r with
  | .ok s => s
  | .error .failed => "ERROR"
  | .error .unsupported => "UNSUPPORTED"

/-- Modelled from the spec: the per-column extractor of operations.ListFormat:
path (with the directory slash), formatted modification time, decimal size,
hash (empty for directories, which are not fs.Objects). -/
def applyColumn (l : ListFormat) (c : Column) (e : Entry) : String :=
  match c with
  | .path => if e.isDir && l.dirSlash then e.data.path ++ "/" else e.data.path
  | .modTime => e.data.modTime
  | .size => toString e.data.size
  | .hash ht =>
    match e with
    | .file d => hashSum (d.hashes ht)
    | .dir _ => ""

/-- Modelled from the spec: operations.ListFormatted (not part of the source
fragment): the column values in order, joined with the separator, with no
leading or trailing separator. -/
def ListFormatted (e : Entry) (l : ListFormat) : String :=
  String.intercalate l.separator (l.output.map (fun c => applyColumn l c e))

/-- The lsf flag set declared in lsf.go (format, separator, dir-slash, hash,
files-only, dirs-only, recursive), gathered into one configuration value. -/
structure Config where
  format : String
  separator : String
  dirSlash : Bool
  hashType : HashType
  filesOnly : Bool
  dirsOnly : Bool
  recurse : Bool

/-- Observable effects of one Lsf call: `out` is the sequence of chunks the
driver writes to the output sink (each one rendered line plus the line
terminator, in write order); `errCount` and `log` are the error side channel
(fs.CountError and fs.Errorf, modelled from the spec since fs is not part of
the source fragment; a log record is the path and the step error). -/
structure SideState where
  out : List String := []
  errCount : Nat := 0
  log : List (String × String) := []
deriving DecidableEq

def SideState.init : SideState := {}

/-- Modelled from the spec: one delivery from walk.Walk to its callback
(path, entries, err): either a successful batch of entries or an error tied
to a path.  Both fields are always present, exactly as in the Go callback
signature, so the embedding can state that entries delivered alongside an
error are ignored. -/
structure Step where
  path : String
  entries : List Entry
  err : Option String

/-- Modelled from the spec: a traversal as walk.Walk (not part of the source
fragment) delivers it: a fatal start error (the traversal cannot be started
at all), or the sequence of steps in delivery order. -/
structure Traversal where
  startErr : Option String := none
  steps : List Step

/-- Model of the Fprintln call on the sink in Lsf: appends the line and the
line terminator to the sink.  `w n` is the error the sink would report for
the n-th write; the Go code discards Fprintln's result, which the dead let
binding mirrors. -/
def fprintln (w : Nat → Option String) (st : SideState) (line : String) : SideState :=
  let _err := w st.out.length
  { st with out := st.out ++ [line ++ "\n"] }

/-- Body of the entry loop of the walk callback in Lsf: the files-only and
dirs-only filter followed by rendering and writing. -/
def processEntry (cfg : Config) (list : ListFormat) (w : Nat → Option String)
    (st : SideState) (entry : Entry) : SideState :=
  if entry.isDir then
    if cfg.filesOnly then st else fprintln w st (ListFormatted entry list)
  else
    if cfg.dirsOnly then st else fprintln w st (ListFormatted entry list)

/-- The walk callback of Lsf: an error step is counted and logged and the
callback returns nil; a success step runs the entry loop and returns nil. -/
def lsfCallback (cfg : Config) (list : ListFormat) (w : Nat → Option String)
    (st : SideState) (s : Step) : SideState × Option String :=
  match s.err with
  | some e =>
    ({ st with errCount := st.errCount + 1, log := st.log ++ [(s.path, e)] }, none)
  | none => (s.entries.foldl (processEntry cfg list w) st, none)

/-- Modelled from the spec: the step-delivery loop of walk.Walk: steps are
delivered to the callback in order, aborting with the callback's error if it
ever returns one. -/
def walkSteps (fn : SideState → Step → SideState × Option String) :
    List Step → SideState → SideState × Option String
  | [], st => (st, none)
  | s :: rest, st =>
    match fn st s with
    | (st2, some e) => (st2, some e)
    | (st2, none) => walkSteps fn rest st2

/-- Modelled from the spec: walk.Walk (fs/walk is not part of the source
fragment): if the traversal cannot be started the error is returned with no
steps delivered; otherwise the steps are delivered in order. -/
def walkWalk (tr : Traversal) (fn : SideState → Step → SideState × Option String)
    (st : SideState) : SideState × Option String :=
  match tr.startErr with
  | some e => (st, some e)
  | none => walkSteps fn tr.steps st

/-- The format-string loop of Lsf: one ListFormat method call per recognised
character, in order, failing with the first unknown character (the Go switch
is rendered as the equivalent chain of conditionals). -/
def addFormatChars (ht : HashType) (list : ListFormat) :
    List Char → Except Char ListFormat
  | [] => .ok list
  | c :: rest =>
    if c = 'p' then addFormatChars ht list.AddPath rest
    else if c = 't' then addFormatChars ht list.AddModTime rest
    else if c = 's' then addFormatChars ht list.AddSize rest
    else if c = 'h' then addFormatChars ht (list.AddHash ht) rest
    else .error c

/-- Setup phase of Lsf: SetSeparator, SetDirSlash on a zero ListFormat, then
the format loop. -/
def buildListFormat (cfg : Config) : Except Char ListFormat :=
  addFormatChars cfg.hashType
    ((ListFormat.SetSeparator {} cfg.separator).SetDirSlash cfg.dirSlash)
    cfg.format.toList

/-- Possible non-nil return values of Lsf: the unknown-format-character error
from the format loop, or the error returned by walk.Walk. -/
inductive LsfError
  | unknownFormatChar (c : Char)
  | walkError (e : String)
deriving DecidableEq

/-- Lsf from lsf.go: compile the format (returning the unknown-character
error before any traversal is started), then walk the remote with the
listing callback, returning the walk outcome together with the observable
side effects. -/
def Lsf (cfg : Config) (tr : Traversal) (w : Nat → Option String) :
    SideState × Option LsfError :=
  match buildListFormat cfg with
  | .error c => (SideState.init, some (LsfError.unknownFormatChar c))
  | .ok list =>
    match walkWalk tr (lsfCallback cfg list w) SideState.init with
    | (st, none) => (st, none)
    | (st, some e) => (st, some (LsfError.walkError e))

/-- Recognised format characters, as a boolean predicate. -/
def isFmtCode (c : Char) : Bool :=
  c == 'p' || c == 't' || c == 's' || c == 'h'

/-- Recognised format characters, as a list. -/
def fmtAlphabet : List Char := ['p', 't', 's', 'h']

/-- The column that the format loop appends for a recognised character. -/
def codeOf (ht : HashType) (c : Char) : Column :=
  if c = 'p' then Column.path
  else if c = 't' then Column.modTime
  else if c = 's' then Column.size
  else Column.hash ht

/-- The entry filter of the callback as a predicate: directories survive
unless files-only, files survive unless dirs-only. -/
def keep (cfg : Config) (e : Entry) : Bool :=
  if e.isDir then !cfg.filesOnly else !cfg.dirsOnly

/-- The chunk one surviving entry contributes to the sink: its rendered line
plus the line terminator. -/
def lineOf (list : ListFormat) (e : Entry) : String :=
  ListFormatted e list ++ "\n"

/-- All entries delivered by successful steps, in delivery order. -/
def okEntries (steps : List Step) : List Entry :=
  (steps.map (fun s => match s.err with | some _ => [] | none => s.entries)).flatten

/-- The entries that survive the files-only and dirs-only filter, in delivery
order. -/
def survivingEntries (cfg : Config) (steps : List Step) : List Entry :=
  (okEntries steps).filter (keep cfg)

/-- The chunks one step contributes to the sink. -/
def stepLines (cfg : Config) (list : ListFormat) (s : Step) : List String :=
  match s.err with
  | some _ => []
  | none => (s.entries.filter (keep cfg)).map (lineOf list)

/-- The diagnostic-log records one step contributes. -/
def stepErrLog (s : Step) : List (String × String) :=
  match s.err with
  | some e => [(s.path, e)]
  | none => []

/-- The effect of one step on the side state, with the callback's nil result
dropped. -/
def stepUpdate (cfg : Config) (list : ListFormat) (st : SideState) (s : Step) :
    SideState :=
  match s.err with
  | some e =>
    { st with errCount := st.errCount + 1, log := st.log ++ [(s.path, e)] }
  | none =>
    { st with out := st.out ++ (s.entries.filter (keep cfg)).map (lineOf list) }

/-- A step with its entry batch emptied when the step carries an error. -/
def scrubStep (s : Step) : Step :=
  if s.err.isSome then { s with entries := [] } else s

/-- Default lsf configuration: the flag defaults from lsf.go. -/
def baseCfg : Config :=
  { format := "p", separator := ";", dirSlash := true, hashType := HashType.md5,
    filesOnly := false, dirsOnly := false, recurse := false }

/-- Sample file entry. -/
def entA : Entry :=
  Entry.file { path := "a", modTime := "2020-01-01 00:00:00", size := 10,
               hashes := fun _ => Except.ok "abc123" }

/-- Sample directory entry. -/
def entB : Entry :=
  Entry.dir { path := "b", modTime := "", size := 0,
              hashes := fun _ => Except.ok "" }

/-- Sample traversal: one successful step delivering a file and a directory. -/
def trA : Traversal :=
  { steps := [{ path := "", entries := [entA, entB], err := none }] }

/-- Sample traversal mixing error steps and a successful step; the last error
step also carries a non-empty entry batch. -/
def trErr : Traversal :=
  { steps :=
      [{ path := "sub", entries := [], err := some "permission denied" },
       { path := "", entries := [entA, entB], err := none },
       { path := "x", entries := [entA], err := some "boom" }] }

/-- A sink that accepts every write. -/
def wNone : Nat → Option String := fun _ => none

/-- A sink on which every write fails. -/
def wBroken : Nat → Option String := fun _ => some "broken pipe"

/-- ListFormat compiled from the default format string p. -/
def lfP : ListFormat :=
  { separator := ";", dirSlash := true, output := [Column.path] }

/-- ListFormat with a single hash column. -/
def lfHash : ListFormat :=
  { separator := ";", dirSlash := true, output := [Column.hash HashType.md5] }

/-- A file whose hash is not available on the object: the backend lookup
succeeds with the empty string. -/
def fileNoHash : Entry :=
  Entry.file { path := "a", modTime := "", size := 1,
               hashes := fun _ => Except.ok "" }

/-- Configuration with a format string containing an unknown character. -/
def cfgBad : Config := { baseCfg with format := "pxt" }

/-- Configuration with a duplicate format code. -/
def cfgPP : Config := { baseCfg with format := "pp" }

/-- Configuration with the empty format string. -/
def cfgEmpty : Config := { baseCfg with format := "" }

/-- Configuration with files-only set. -/
def cfgFiles : Config := { baseCfg with filesOnly := true }

/-- Configuration with both files-only and dirs-only set. -/
def cfgBoth : Config := { baseCfg with filesOnly := true, dirsOnly := true }

/-- One entry-loop iteration either drops the entry or appends its line. -/
lemma processEntry_eq (cfg : Config) (list : ListFormat) (w : Nat → Option String)
    (st : SideState) (e : Entry) :
    processEntry cfg list w st e =
      if keep cfg e then { st with out := st.out ++ [lineOf list e] } else st := by
  cases e <;>
    simp [processEntry, keep, fprintln, lineOf, Entry.isDir] <;>
    [cases cfg.dirsOnly; cases cfg.filesOnly] <;> simp

/-- The entry loop of one successful step appends the lines of the surviving
entries, in order, and touches nothing else. -/
lemma foldl_processEntry (cfg : Config) (list : ListFormat) (w : Nat → Option String) :
    ∀ (es : List Entry) (st : SideState),
      es.foldl (processEntry cfg list w) st =
        { st with out := st.out ++ (es.filter (keep cfg)).map (lineOf list) } := by
  intro es
  induction es with
  | nil => intro st; simp
  | cons e es ih =>
    intro st
    rw [List.foldl_cons, processEntry_eq]
    cases hk : keep cfg e with
    | true => rw [if_pos rfl, ih]; simp [List.filter_cons, hk]
    | false => rw [if_neg (by simp), ih]; simp [List.filter_cons, hk]

/-- The callback always returns nil and performs the step update. -/
lemma lsfCallback_eq (cfg : Config) (list : ListFormat) (w : Nat → Option String)
    (st : SideState) (s : Step) :
    lsfCallback cfg list w st s = (stepUpdate cfg list st s, none) := by
  cases hs : s.err <;>
    simp [lsfCallback, stepUpdate, hs, foldl_processEntry]

/-- Delivering the steps to the lsf callback never aborts and folds the step
updates. -/
lemma walkSteps_eq (cfg : Config) (list : ListFormat) (w : Nat → Option String) :
    ∀ (steps : List Step) (st : SideState),
      walkSteps (lsfCallback cfg list w) steps st =
        (steps.foldl (stepUpdate cfg list) st, none) := by
  intro steps
  induction steps with
  | nil => intro st; rfl
  | cons s rest ih =>
    intro st
    rw [walkSteps, lsfCallback_eq]
    exact ih (stepUpdate cfg list st s)

/-- Folding the step updates concatenates the per-step lines and log records
and adds up the error count. -/
lemma foldl_stepUpdate (cfg : Config) (list : ListFormat) :
    ∀ (steps : List Step) (st : SideState),
      steps.foldl (stepUpdate cfg list) st =
        { out := st.out ++ (steps.map (stepLines cfg list)).flatten,
          errCount := st.errCount + steps.countP (fun s => s.err.isSome),
          log := st.log ++ (steps.map stepErrLog).flatten } := by
  intro steps
  induction steps with
  | nil => intro st; simp
  | cons s rest ih =>
    intro st
    rw [List.foldl_cons, ih]
    cases hs : s.err with
    | none =>
      simp [stepUpdate, stepLines, stepErrLog, hs, List.countP_cons,
        List.append_assoc]
    | some e =>
      simp only [stepUpdate, stepLines, stepErrLog, hs, List.map_cons,
        List.flatten_cons, List.countP_cons, Option.isSome_some, if_true,
        SideState.mk.injEq]
      refine ⟨by simp, by omega, by simp⟩

/-- Full characterisation of Lsf on a valid format string and a traversal
that starts: the output is the concatenation of the per-step lines, the side
channel holds one record per error step, and the returned error is nil. -/
lemma Lsf_ok (cfg : Config) (tr : Traversal) (w : Nat → Option String)
    (list : ListFormat) (hlf : buildListFormat cfg = Except.ok list)
    (hs : tr.startErr = none) :
    Lsf cfg tr w =
      ({ out := (tr.steps.map (stepLines cfg list)).flatten,
         errCount := tr.steps.countP (fun s => s.err.isSome),
         log := (tr.steps.map stepErrLog).flatten }, none) := by
  simp only [Lsf, walkWalk, hlf, hs, walkSteps_eq, foldl_stepUpdate, SideState.init]
  simp

/-- The concatenated per-step lines are the rendered surviving entries in
delivery order. -/
lemma flatten_stepLines (cfg : Config) (list : ListFormat) :
    ∀ steps : List Step,
      (steps.map (stepLines cfg list)).flatten =
        (survivingEntries cfg steps).map (lineOf list) := by
  intro steps
  induction steps with
  | nil => simp [survivingEntries, okEntries]
  | cons s rest ih =>
    rw [List.map_cons, List.flatten_cons, ih]
    cases hs : s.err with
    | none =>
      simp [stepLines, survivingEntries, okEntries, hs, List.filter_append]
    | some e =>
      simp [stepLines, survivingEntries, okEntries, hs]

/-- Membership in the format alphabet agrees with the boolean predicate. -/
lemma mem_fmtAlphabet_iff (c : Char) : c ∈ fmtAlphabet ↔ isFmtCode c = true := by
  simp [fmtAlphabet, isFmtCode]
  tauto

/-- On a string of recognised characters the format loop succeeds and appends
one column per character, in order. -/
lemma addFormatChars_ok (ht : HashType) :
    ∀ (chars : List Char) (list : ListFormat),
      (∀ c ∈ chars, isFmtCode c = true) →
      addFormatChars ht list chars =
        Except.ok { list with output := list.output ++ chars.map (codeOf ht) } := by
  intro chars
  induction chars with
  | nil => intro list _; simp [addFormatChars]
  | cons a rest ih =>
    intro list h
    have ha : isFmtCode a = true := h a (List.mem_cons_self a rest)
    have hrest : ∀ c ∈ rest, isFmtCode c = true := fun c hc => h c (List.mem_cons_of_mem a hc)
    by_cases hp : a = 'p'
    · subst hp
      rw [addFormatChars, if_pos rfl, ih list.AddPath hrest]
      simp [ListFormat.AddPath, ListFormat.AppendOutput, codeOf]
    · by_cases hmt : a = 't'
      · subst hmt
        rw [addFormatChars, if_neg (by decide), if_pos rfl, ih list.AddModTime hrest]
        simp [ListFormat.AddModTime, ListFormat.AppendOutput, codeOf]
      · by_cases hsz : a = 's'
        · subst hsz
          rw [addFormatChars, if_neg (by decide), if_neg (by decide), if_pos rfl,
            ih list.AddSize hrest]
          simp [ListFormat.AddSize, ListFormat.AppendOutput, codeOf]
        · by_cases hh : a = 'h'
          · subst hh
            rw [addFormatChars, if_neg (by decide), if_neg (by decide),
              if_neg (by decide), if_pos rfl, ih (list.AddHash ht) hrest]
            simp [ListFormat.AddHash, ListFormat.AppendOutput, codeOf, hp, hmt, hsz]
          · exfalso
            simp [isFmtCode, hp, hmt, hsz, hh] at ha

/-- The format loop fails with the first unrecognised character. -/
lemma addFormatChars_bad (ht : HashType) :
    ∀ (chars : List Char) (list : ListFormat) (c : Char),
      chars.find? (fun a => !isFmtCode a) = some c →
      addFormatChars ht list chars = Except.error c := by
  intro chars
  induction chars with
  | nil => intro list c h; simp [List.find?] at h
  | cons a rest ih =>
    intro list c h
    rw [List.find?_cons] at h
    by_cases hgood : isFmtCode a = true
    · rw [hgood] at h
      simp only [Bool.not_true] at h
      rcases (by simp only [isFmtCode, Bool.or_eq_true, beq_iff_eq] at hgood; tauto :
          a = 'p' ∨ a = 't' ∨ a = 's' ∨ a = 'h') with hp | hmt | hsz | hh
      · subst hp
        rw [addFormatChars, if_pos rfl]
        exact ih list.AddPath c h
      · subst hmt
        rw [addFormatChars, if_neg (by decide), if_pos rfl]
        exact ih list.AddModTime c h
      · subst hsz
        rw [addFormatChars, if_neg (by decide), if_neg (by decide), if_pos rfl]
        exact ih list.AddSize c h
      · subst hh
        rw [addFormatChars, if_neg (by decide), if_neg (by decide), if_neg (by decide),
          if_pos rfl]
        exact ih (list.AddHash ht) c h
    · have hbad : isFmtCode a = false := by
        cases hx : isFmtCode a
        · rfl
        · exact absurd hx hgood
      rw [hbad] at h
      simp only [Bool.not_false] at h
      have hac : a = c := by
        cases h' : (true : Bool) <;> simp_all
      subst hac
      have hp : ¬a = 'p' := by
        intro hx; subst hx; simp [isFmtCode] at hbad
      have hmt : ¬a = 't' := by
        intro hx; subst hx; simp [isFmtCode] at hbad
      have hsz : ¬a = 's' := by
        intro hx; subst hx; simp [isFmtCode] at hbad
      have hh : ¬a = 'h' := by
        intro hx; subst hx; simp [isFmtCode] at hbad
      rw [addFormatChars, if_neg hp, if_neg hmt, if_neg hsz, if_neg hh]

/-- Compiling a configuration whose format characters are all recognised
yields exactly the separator, the slash flag and one column per character. -/
lemma buildListFormat_ok (cfg : Config)
    (h : ∀ c ∈ cfg.format.toList, isFmtCode c = true) :
    buildListFormat cfg =
      Except.ok { separator := cfg.separator, dirSlash := cfg.dirSlash,
                  output := cfg.format.toList.map (codeOf cfg.hashType) } := by
  rw [buildListFormat, addFormatChars_ok cfg.hashType cfg.format.toList _ h]
  rfl

/-- C1: for a format string containing a character outside the alphabet
p, t, s, h, Lsf fails with the unknown-format-character error naming the
first such character, the traversal is never started (the result is the
untouched initial side state, for every traversal and sink), and no output
lines are written. -/
theorem lsf_c1 (cfg : Config) (tr : Traversal) (w : Nat → Option String) (c : Char)
    (h : cfg.format.toList.find? (fun a => !isFmtCode a) = some c) :
    Lsf cfg tr w = (SideState.init, some (LsfError.unknownFormatChar c)) ∧
    c ∈ cfg.format.toList ∧ c ∉ fmtAlphabet := by
  have hb : buildListFormat cfg = Except.error c :=
    addFormatChars_bad cfg.hashType cfg.format.toList _ c h
  refine ⟨by simp [Lsf, hb], List.mem_of_find?_eq_some h, ?_⟩
  have hc := List.find?_some h
  intro hmem
  rw [mem_fmtAlphabet_iff] at hmem
  rw [hmem] at hc
  simp at hc

/-- Witness for C1 at the concrete format string pxt. -/
theorem lsf_c1_witness :
    cfgBad.format.toList.find? (fun a => !isFmtCode a) = some 'x' ∧
    (Lsf cfgBad trA wNone = (SideState.init, some (LsfError.unknownFormatChar 'x')) ∧
      'x' ∈ cfgBad.format.toList ∧ 'x' ∉ fmtAlphabet) :=
  ⟨by decide, lsf_c1 cfgBad trA wNone 'x' (by decide)⟩

/-- C2: with a valid format and a traversal that starts, every error step is
reported to the side channel (one count and one log record each, in delivery
order), processing continues with all remaining steps (the output still holds
every surviving entry of every successful step), and Lsf returns no error. -/
theorem lsf_c2 (cfg : Config) (tr : Traversal) (w : Nat → Option String)
    (list : ListFormat) (hlf : buildListFormat cfg = Except.ok list)
    (hs : tr.startErr = none) :
    (Lsf cfg tr w).2 = none ∧
    (Lsf cfg tr w).1.errCount = tr.steps.countP (fun s => s.err.isSome) ∧
    (Lsf cfg tr w).1.log = (tr.steps.map stepErrLog).flatten ∧
    (Lsf cfg tr w).1.out = (survivingEntries cfg tr.steps).map (lineOf list) := by
  rw [Lsf_ok cfg tr w list hlf hs]
  exact ⟨rfl, rfl, rfl, flatten_stepLines cfg list tr.steps⟩

/-- Witness for C2 at a traversal with two error steps and one success step. -/
theorem lsf_c2_witness :
    buildListFormat baseCfg = Except.ok lfP ∧ trErr.startErr = none ∧
    ((Lsf baseCfg trErr wNone).2 = none ∧
      (Lsf baseCfg trErr wNone).1.errCount = trErr.steps.countP (fun s => s.err.isSome) ∧
      (Lsf baseCfg trErr wNone).1.log = (trErr.steps.map stepErrLog).flatten ∧
      (Lsf baseCfg trErr wNone).1.out =
        (survivingEntries baseCfg trErr.steps).map (lineOf lfP)) :=
  ⟨by rfl, rfl, lsf_c2 baseCfg trErr wNone lfP (by rfl) rfl⟩

/-- C3 counterexample: on a sink on which every write fails, Lsf still
returns no error and still attempts every remaining write (both lines are
written after the first failure), so a failing sink neither aborts the
listing nor is propagated to the caller. -/
theorem lsf_c3_counterexample :
    Lsf baseCfg trA wBroken =
      ({ out := ["a\n", "b/\n"], errCount := 0, log := [] }, none) := by
  rfl

/-- C3 amended: Lsf discards the write errors of the output sink entirely:
its result (return value and all side effects) is the same for every
assignment of write outcomes to the sink. -/
theorem lsf_c3_amended (cfg : Config) (tr : Traversal) (w1 w2 : Nat → Option String) :
    Lsf cfg tr w1 = Lsf cfg tr w2 := by
  cases hb : buildListFormat cfg with
  | error c => simp [Lsf, hb]
  | ok list =>
    simp only [Lsf, hb]
    unfold walkWalk
    cases hst : tr.startErr with
    | some e => rfl
    | none => simp [walkSteps_eq]

/-- C4: with files-only set no directory entry produces an output line, with
dirs-only set no file entry produces an output line, and with neither set
every delivered entry produces exactly one output line, in delivery order. -/
theorem lsf_c4 (cfg : Config) (tr : Traversal) (w : Nat → Option String)
    (list : ListFormat) (hlf : buildListFormat cfg = Except.ok list)
    (hs : tr.startErr = none) :
    (cfg.filesOnly = true →
      (Lsf cfg tr w).1.out =
        ((okEntries tr.steps).filter (fun e => !e.isDir && !cfg.dirsOnly)).map
          (lineOf list)) ∧
    (cfg.dirsOnly = true →
      (Lsf cfg tr w).1.out =
        ((okEntries tr.steps).filter (fun e => e.isDir && !cfg.filesOnly)).map
          (lineOf list)) ∧
    (cfg.filesOnly = false → cfg.dirsOnly = false →
      (Lsf cfg tr w).1.out = (okEntries tr.steps).map (lineOf list)) := by
  have hout : (Lsf cfg tr w).1.out =
      ((okEntries tr.steps).filter (keep cfg)).map (lineOf list) := by
    rw [Lsf_ok cfg tr w list hlf hs]
    exact flatten_stepLines cfg list tr.steps
  refine ⟨fun hf => ?_, fun hd => ?_, fun hf hd => ?_⟩
  · rw [hout]
    congr 1
    apply List.filter_congr
    intro e _
    cases e <;> simp [keep, Entry.isDir, hf]
  · rw [hout]
    congr 1
    apply List.filter_congr
    intro e _
    cases e <;> simp [keep, Entry.isDir, hd]
  · rw [hout]
    have hall : (okEntries tr.steps).filter (keep cfg) = okEntries tr.steps := by
      apply List.filter_eq_self.mpr
      intro e _
      cases e <;> simp [keep, Entry.isDir, hf, hd]
    rw [hall]

/-- Witness for C4 with files-only set: the directory entry yields no line. -/
theorem lsf_c4_witness :
    buildListFormat cfgFiles = Except.ok lfP ∧ trA.startErr = none ∧
    ((cfgFiles.filesOnly = true →
        (Lsf cfgFiles trA wNone).1.out =
          ((okEntries trA.steps).filter (fun e => !e.isDir && !cfgFiles.dirsOnly)).map
            (lineOf lfP)) ∧
      (cfgFiles.dirsOnly = true →
        (Lsf cfgFiles trA wNone).1.out =
          ((okEntries trA.steps).filter (fun e => e.isDir && !cfgFiles.filesOnly)).map
            (lineOf lfP)) ∧
      (cfgFiles.filesOnly = false → cfgFiles.dirsOnly = false →
        (Lsf cfgFiles trA wNone).1.out = (okEntries trA.steps).map (lineOf lfP))) :=
  ⟨by rfl, rfl, lsf_c4 cfgFiles trA wNone lfP (by rfl) rfl⟩

/-- C5: a format string drawn entirely from the alphabet p, t, s, h compiles
successfully (duplicates included), to one column per character, and every
rendered line joins the fields in exactly the order the characters appear in
the string. -/
theorem lsf_c5 (cfg : Config)
    (h : ∀ c ∈ cfg.format.toList, isFmtCode c = true) :
    ∃ list : ListFormat,
      buildListFormat cfg = Except.ok list ∧
      list.output = cfg.format.toList.map (codeOf cfg.hashType) ∧
      ∀ e : Entry,
        ListFormatted e list =
          String.intercalate list.separator
            (cfg.format.toList.map (fun c => applyColumn list (codeOf cfg.hashType c) e)) := by
  refine ⟨_, buildListFormat_ok cfg h, rfl, fun e => ?_⟩
  rw [ListFormatted, List.map_map]
  rfl

/-- Witness for C5 at the duplicate format string pp, which renders the path
twice. -/
theorem lsf_c5_witness :
    (∀ c ∈ cfgPP.format.toList, isFmtCode c = true) ∧
    (∃ list : ListFormat,
      buildListFormat cfgPP = Except.ok list ∧
      list.output = cfgPP.format.toList.map (codeOf cfgPP.hashType) ∧
      ∀ e : Entry,
        ListFormatted e list =
          String.intercalate list.separator
            (cfgPP.format.toList.map (fun c => applyColumn list (codeOf cfgPP.hashType c) e))) ∧
    ListFormatted entA { separator := ";", dirSlash := true,
                         output := [Column.path, Column.path] } = "a;a" :=
  ⟨by decide, lsf_c5 cfgPP (by decide), rfl⟩

/-- C6 counterexample: Lsf given the empty format string returns no error and
proceeds to the traversal, writing one empty line per entry, so construction
of the format specification does not fail on the empty string. -/
theorem lsf_c6_counterexample :
    Lsf cfgEmpty trA wNone =
      ({ out := ["\n", "\n"], errCount := 0, log := [] }, none) := by
  rfl

/-- C6 amended: the empty format string compiles successfully to an empty
column list, and Lsf proceeds to the traversal, rendering every surviving
entry as an empty line (just the line terminator) and returning no error when
the traversal starts. -/
theorem lsf_c6_amended (cfg : Config) (tr : Traversal) (w : Nat → Option String)
    (hf : cfg.format = "") (hs : tr.startErr = none) :
    buildListFormat cfg =
      Except.ok { separator := cfg.separator, dirSlash := cfg.dirSlash, output := [] } ∧
    (Lsf cfg tr w).2 = none ∧
    (Lsf cfg tr w).1.out = (survivingEntries cfg tr.steps).map (fun _ => "\n") := by
  have hlf : buildListFormat cfg =
      Except.ok { separator := cfg.separator, dirSlash := cfg.dirSlash, output := [] } := by
    rw [buildListFormat, hf]
    rfl
  refine ⟨hlf, ?_, ?_⟩
  · rw [Lsf_ok cfg tr w _ hlf hs]
  · rw [Lsf_ok cfg tr w _ hlf hs]
    show (tr.steps.map (stepLines cfg _)).flatten = _
    rw [flatten_stepLines]
    exact List.map_congr_left fun e _ => rfl

/-- Witness for C6 amended at the concrete empty-format configuration. -/
theorem lsf_c6_witness :
    cfgEmpty.format = "" ∧ trA.startErr = none ∧
    (buildListFormat cfgEmpty =
        Except.ok { separator := cfgEmpty.separator, dirSlash := cfgEmpty.dirSlash,
                    output := [] } ∧
      (Lsf cfgEmpty trA wNone).2 = none ∧
      (Lsf cfgEmpty trA wNone).1.out =
        (survivingEntries cfgEmpty trA.steps).map (fun _ => "\n")) :=
  ⟨rfl, rfl, lsf_c6_amended cfgEmpty trA wNone rfl rfl⟩

/-- C7: with a valid format and a traversal that starts, the sequence of
chunks written to the sink is exactly one newline-terminated rendered line
per surviving entry, in delivery order, with no extra lines. -/
theorem lsf_c7 (cfg : Config) (tr : Traversal) (w : Nat → Option String)
    (list : ListFormat) (hlf : buildListFormat cfg = Except.ok list)
    (hs : tr.startErr = none) :
    (Lsf cfg tr w).1.out =
      (survivingEntries cfg tr.steps).map (fun e => ListFormatted e list ++ "\n") := by
  rw [Lsf_ok cfg tr w list hlf hs]
  exact flatten_stepLines cfg list tr.steps

/-- Witness for C7 at a concrete traversal mixing error and success steps. -/
theorem lsf_c7_witness :
    buildListFormat baseCfg = Except.ok lfP ∧ trErr.startErr = none ∧
    (Lsf baseCfg trErr wNone).1.out =
      (survivingEntries baseCfg trErr.steps).map (fun e => ListFormatted e lfP ++ "\n") :=
  ⟨by rfl, rfl, lsf_c7 baseCfg trErr wNone lfP (by rfl) rfl⟩

/-- C8 counterexample: a file whose hash is not available on the object (the
backend lookup succeeds with the empty string) renders an empty hash field,
so the hash field of a File entry is not always one of a nonempty string,
ERROR, or UNSUPPORTED. -/
theorem lsf_c8_counterexample : ListFormatted fileNoHash lfHash = "" := rfl

/-- C8 amended: the hash field of a File entry is the backend's hash string
verbatim when the lookup succeeds (which is the empty string when the hash is
not available on the object), the literal ERROR when reading it failed, and
the literal UNSUPPORTED when the hash type is unsupported; Directory entries
always render an empty hash field. -/
theorem lsf_c8_amended (list : ListFormat) (ht : HashType) (d : EntryData) (s : String) :
    applyColumn list (Column.hash ht) (Entry.file d) = hashSum (d.hashes ht) ∧
    hashSum (Except.ok s) = s ∧
    hashSum (Except.error HashErr.failed) = "ERROR" ∧
    hashSum (Except.error HashErr.unsupported) = "UNSUPPORTED" ∧
    applyColumn list (Column.hash ht) (Entry.dir d) = "" :=
  ⟨rfl, rfl, rfl, rfl, rfl⟩

/-- C9: with both files-only and dirs-only set, every entry is filtered out:
Lsf writes no output lines at all and still returns success when the format
is valid and the traversal starts. -/
theorem lsf_c9 (cfg : Config) (tr : Traversal) (w : Nat → Option String)
    (list : ListFormat) (hlf : buildListFormat cfg = Except.ok list)
    (hs : tr.startErr = none) (hf : cfg.filesOnly = true) (hd : cfg.dirsOnly = true) :
    (Lsf cfg tr w).1.out = [] ∧ (Lsf cfg tr w).2 = none := by
  have hnone : survivingEntries cfg tr.steps = [] := by
    rw [survivingEntries, List.filter_eq_nil_iff]
    intro e _
    cases e <;> simp [keep, Entry.isDir, hf, hd]
  rw [Lsf_ok cfg tr w list hlf hs]
  refine ⟨?_, rfl⟩
  show (tr.steps.map (stepLines cfg list)).flatten = []
  rw [flatten_stepLines, hnone]
  rfl

/-- Witness for C9 at a traversal delivering one file and one directory. -/
theorem lsf_c9_witness :
    buildListFormat cfgBoth = Except.ok lfP ∧ trA.startErr = none ∧
    cfgBoth.filesOnly = true ∧ cfgBoth.dirsOnly = true ∧
    ((Lsf cfgBoth trA wNone).1.out = [] ∧ (Lsf cfgBoth trA wNone).2 = none) :=
  ⟨by rfl, rfl, rfl, rfl, lsf_c9 cfgBoth trA wNone lfP (by rfl) rfl rfl rfl⟩

/-- C10: entries delivered alongside an error step are never filtered,
rendered, written or otherwise used: emptying the entry batch of every error
step leaves the entire result of Lsf unchanged, for every configuration,
traversal and sink. -/
theorem lsf_c10 (cfg : Config) (tr : Traversal) (w : Nat → Option String) :
    Lsf cfg { tr with steps := tr.steps.map scrubStep } w = Lsf cfg tr w := by
  cases hb : buildListFormat cfg with
  | error c => simp [Lsf, hb]
  | ok list =>
    have hfold : ∀ (steps : List Step) (st : SideState),
        (steps.map scrubStep).foldl (stepUpdate cfg list) st =
          steps.foldl (stepUpdate cfg list) st := by
      intro steps
      induction steps with
      | nil => intro st; rfl
      | cons s rest ih =>
        intro st
        rw [List.map_cons, List.foldl_cons, List.foldl_cons]
        have hone : stepUpdate cfg list st (scrubStep s) = stepUpdate cfg list st s := by
          cases hs : s.err with
          | none => simp [scrubStep, hs]
          | some e => simp [scrubStep, stepUpdate, hs]
        rw [hone, ih]
    simp only [Lsf, hb]
    unfold walkWalk
    cases hst : tr.startErr with
    | some e => rfl
    | none => simp [hst, walkSteps_eq, hfold]

end Rclone
